import Mathlib

/-!
# Verification of the rollup sequencer and its L1 contract

Shallow embedding of `src/services/sequencer.ts` (the off-chain sequencer)
and `contracts/L1RollupContract.sol` (the verifying ledger).

Hashing is modelled symbolically: a byte is either a concrete literal or an
atom standing for one output byte of `keccak256` applied to a message (a list
of symbolic bytes).  Two keccak outputs are equal exactly when their input
messages are equal byte-for-byte, which is the standard collision-free model
of a cryptographic hash.  All definitions are executable.
-/

/-- A symbolic byte.
* `lit b` — a concrete byte value (`0 ≤ b < 256` for all bytes the
  embedding constructs).
* `hb msg i` — the `i`-th output byte of `keccak256 msg`.
* `hexhi s` / `hexlo s` — the ASCII character of the high / low nibble of a
  symbolic (non-literal) byte, used only to model JavaScript hex-string
  rendering of hash values; on literal bytes the rendering is computed
  exactly (see `hexHi` / `hexLo`). -/
inductive SByte where
  | lit (b : Nat) : SByte
  | hb (msg : List SByte) (i : Nat) : SByte
  | hexhi (s : SByte) : SByte
  | hexlo (s : SByte) : SByte

abbrev SBytes := List SByte

mutual

def SByte.decEq : (a b : SByte) → Decidable (a = b)
  | .lit x, .lit y =>
    match Nat.decEq x y with
    | isTrue h => isTrue (by rw [h])
    | isFalse h => isFalse (by intro hh; injection hh; contradiction)
  | .lit _, .hb _ _ => isFalse (by intro h; exact SByte.noConfusion h)
  | .lit _, .hexhi _ => isFalse (by intro h; exact SByte.noConfusion h)
  | .lit _, .hexlo _ => isFalse (by intro h; exact SByte.noConfusion h)
  | .hb _ _, .lit _ => isFalse (by intro h; exact SByte.noConfusion h)
  | .hb m i, .hb n j =>
    match SByte.decEqList m n, Nat.decEq i j with
    | isTrue h1, isTrue h2 => isTrue (by rw [h1, h2])
    | isFalse h1, _ => isFalse (by intro hh; injection hh; contradiction)
    | isTrue _, isFalse h2 => isFalse (by intro hh; injection hh; contradiction)
  | .hb _ _, .hexhi _ => isFalse (by intro h; exact SByte.noConfusion h)
  | .hb _ _, .hexlo _ => isFalse (by intro h; exact SByte.noConfusion h)
  | .hexhi _, .lit _ => isFalse (by intro h; exact SByte.noConfusion h)
  | .hexhi _, .hb _ _ => isFalse (by intro h; exact SByte.noConfusion h)
  | .hexhi a, .hexhi b =>
    match SByte.decEq a b with
    | isTrue h => isTrue (by rw [h])
    | isFalse h => isFalse (by intro hh; injection hh; contradiction)
  | .hexhi _, .hexlo _ => isFalse (by intro h; exact SByte.noConfusion h)
  | .hexlo _, .lit _ => isFalse (by intro h; exact SByte.noConfusion h)
  | .hexlo _, .hb _ _ => isFalse (by intro h; exact SByte.noConfusion h)
  | .hexlo _, .hexhi _ => isFalse (by intro h; exact SByte.noConfusion h)
  | .hexlo a, .hexlo b =>
    match SByte.decEq a b with
    | isTrue h => isTrue (by rw [h])
    | isFalse h => isFalse (by intro hh; injection hh; contradiction)

def SByte.decEqList : (as bs : List SByte) → Decidable (as = bs)
  | [], [] => isTrue rfl
  | [], _ :: _ => isFalse (by intro h; exact List.noConfusion h)
  | _ :: _, [] => isFalse (by intro h; exact List.noConfusion h)
  | a :: as, b :: bs =>
    match SByte.decEq a b, SByte.decEqList as bs with
    | isTrue h1, isTrue h2 => isTrue (by rw [h1, h2])
    | isFalse h1, _ => isFalse (by intro hh; injection hh; contradiction)
    | isTrue _, isFalse h2 => isFalse (by intro hh; injection hh; contradiction)

end

instance : DecidableEq SByte := SByte.decEq

/-- `keccak256` of a message, as 32 symbolic output bytes. -/
def keccak256 (msg : SBytes) : SBytes :=
  (List.range 32).map (fun i => SByte.hb msg i)

/-- Big-endian byte representation of `n` in exactly `w` bytes
(the low `w` bytes of `n`; matches `abi.encodePacked` for `uintN`). -/
def beBytes : Nat → Nat → List Nat
  | 0, _ => []
  | w + 1, n => beBytes w (n / 256) ++ [n % 256]

/-- Inject concrete bytes into symbolic bytes. -/
def lits (bs : List Nat) : SBytes := bs.map SByte.lit

/-- Packed encoding of a `uint256` (32 big-endian bytes). -/
def encUint256 (n : Nat) : SBytes := lits (beBytes 32 n)

/-- Packed encoding of an `address` (20 big-endian bytes). -/
def encAddress (a : Nat) : SBytes := lits (beBytes 20 a)

/-- ASCII code of the lowercase hex digit for `n < 16`. -/
def hexChar (n : Nat) : Nat := if n < 10 then 48 + n else 87 + n

/-- ASCII character of the high nibble of a symbolic byte
(exact on literals, symbolic atom otherwise). -/
def hexHi : SByte → SByte
  | .lit b => .lit (hexChar (b / 16 % 16))
  | s => .hexhi s

/-- ASCII character of the low nibble of a symbolic byte. -/
def hexLo : SByte → SByte
  | .lit b => .lit (hexChar (b % 16))
  | s => .hexlo s

/-- The lowercase `0x`-prefixed hex string (as UTF-8 bytes) that ethers.js
renders for a byte array; `48` and `120` are the codes of `0` and `x`. -/
def hexRender (bs : SBytes) : SBytes :=
  SByte.lit 48 :: SByte.lit 120 :: bs.flatMap (fun b => [hexHi b, hexLo b])

/-- Extract the concrete byte values of a message when it is fully literal. -/
def litVals : SBytes → Option (List Nat)
  | [] => some []
  | .lit b :: rest => (litVals rest).map (fun l => b :: l)
  | _ => none

/-- Big-endian numeric value of a concrete byte string. -/
def beVal (bs : List Nat) : Nat := bs.foldl (fun acc b => acc * 256 + b) 0

/-- The Solidity `<=` comparison of two `bytes32` values (numeric, which on
32-byte strings coincides with lexicographic order).  It is decidable only on
concrete bytes; when either side contains a symbolic hash byte the model
answers `true`.  No claim in this development depends on that branch choice:
every theorem below either quantifies over the outcome or evaluates the
comparison on concrete inputs. -/
def bytes32Le (a b : SBytes) : Bool :=
  match litVals a, litVals b with
  | some x, some y => beVal x ≤ beVal y
  | _, _ => true

/-! ## The off-chain sequencer (`src/services/sequencer.ts`) -/

/-- A rollup transaction as the sequencer receives it.  Addresses are modelled
by their numeric value (< 2^160); `data` and `signature` are raw byte strings. -/
structure Transaction where
  sender : Nat
  recipient : Nat
  value : Nat
  data : List Nat
  nonce : Nat
  signature : List Nat
deriving DecidableEq

/-- Leaf hash of one transaction (sequencer.ts lines 126-131):
`keccak256(solidityPacked([address, address, uint256, bytes, uint256, bytes],
[from, to, value, data, nonce, signature]))`. -/
def txLeafHash (tx : Transaction) : SBytes :=
  keccak256 (encAddress tx.sender ++ encAddress tx.recipient ++
    encUint256 tx.value ++ lits tx.data ++ encUint256 tx.nonce ++
    lits tx.signature)

/-- One pass of the Merkle-layer loop (sequencer.ts lines 141-149): adjacent
nodes are paired in order; a trailing odd node is paired with itself
(`right = i + 1 < length ? layer[i+1] : left`); each pair is combined as
`keccak256(solidityPacked([bytes32, bytes32], [left, right]))`. -/
def combineLevel : List SBytes → List SBytes
  | [] => []
  | [x] => [keccak256 (x ++ x)]
  | x :: y :: rest => keccak256 (x ++ y) :: combineLevel rest

/-- The `while (layers[0].length > 1)` loop of sequencer.ts lines 134-154:
combine layers until one node is left, then return `layers[0][0]`
(`none` models the JavaScript `undefined` read off an empty layer). -/
def merkleLoop (layer : List SBytes) : Option SBytes :=
  if _h : layer.length ≤ 1 then layer.head?
  else merkleLoop (combineLevel layer)
termination_by layer.length
decreasing_by
  have key : ∀ l : List SBytes, (combineLevel l).length = (l.length + 1) / 2 := by
    intro l
    induction l using combineLevel.induct with
    | case1 => simp [combineLevel]
    | case2 x => simp [combineLevel]
    | case3 x y rest ih => simp [combineLevel, ih]; omega
  rw [key]
  omega

/-- `calculateTransactionRoot` (sequencer.ts lines 124-155). -/
def calculateTransactionRoot (txs : List Transaction) : Option SBytes :=
  merkleLoop (txs.map txLeafHash)

/-- The sequencer-side batch header (sequencer.ts lines 108-114).  In the
TypeScript code `previousBatchHash` and `transactionRoot` are JavaScript
strings holding `0x`-prefixed hex text; they are modelled as the UTF-8 bytes
of those strings.  `transactionRoot` is `none` when `calculateTransactionRoot`
returned `undefined` (empty transaction list). -/
structure SeqHeader where
  batchNumber : Nat
  timestamp : Nat
  previousBatchHash : SBytes
  transactionRoot : Option SBytes
deriving DecidableEq

/-- The sequencer-side batch context (sequencer.ts lines 115-119). -/
structure SeqContext where
  submitter : Nat
  timestamp : Nat
  challengePeriodEnd : Nat
deriving DecidableEq

/-- The sequencer-side batch (sequencer.ts lines 104-122). -/
structure SeqBatch where
  header : SeqHeader
  context : SeqContext
  transactions : List Transaction
deriving DecidableEq

/-- The sequencer's mutable state (sequencer.ts lines 4-11).  `lastBatchHash`
is the hex string the code stores, as UTF-8 bytes.  The contract handle,
the sequencer address and the `initialized` flag are fixed context; claims
below are about the already-initialized sequencer. -/
structure SeqState where
  batchNumber : Nat
  lastBatchHash : SBytes
  pendingTransactions : List Transaction
deriving DecidableEq

/-- `BATCH_SIZE` (sequencer.ts line 8). -/
def BATCH_SIZE : Nat := 10

/-- `createBatch` (sequencer.ts lines 104-122): header and context built from
the current state; `transactionRoot` is the hex rendering of the Merkle root
(`ethers.keccak256` returns a hex string); `addr` is `this.address`. -/
def createBatch (addr : Nat) (s : SeqState) (now : Nat) : SeqBatch :=
  { header :=
      { batchNumber := s.batchNumber
        timestamp := now
        previousBatchHash := s.lastBatchHash
        transactionRoot :=
          (calculateTransactionRoot s.pendingTransactions).map hexRender }
    context :=
      { submitter := addr
        timestamp := now
        challengePeriodEnd := now + 7 * 24 * 60 * 60 * 1000 }
    transactions := s.pendingTransactions }

/-- `calculateBatchHash` (sequencer.ts lines 157-169):
`keccak256(solidityPacked([uint256, uint256, string, string], ...))`.
The two hash fields are packed with type `string`, i.e. as the raw UTF-8
bytes of the hex text they hold.  The `none` root (undefined in JavaScript)
would make `solidityPacked` throw; it is unreachable on the submission path,
where batches hold at least `BATCH_SIZE` transactions, and is mapped to the
empty string here. -/
def calculateBatchHash (b : SeqBatch) : SBytes :=
  keccak256 (encUint256 b.header.batchNumber ++ encUint256 b.header.timestamp
    ++ b.header.previousBatchHash ++ b.header.transactionRoot.getD [])

/-- The sequencer's error outcomes (`throw new Error(...)` sites). -/
inductive SeqError where
  | invalidTransaction
  | submissionFailed
deriving DecidableEq

/-- `createAndSubmitBatch` (sequencer.ts lines 94-102).  The ledger call
`submitBatchToL1` (lines 171-196) either succeeds or throws; its outcome is
the oracle `submitOk`.  Only after a successful submission does the code run
the three state updates (`lastBatchHash`, `batchNumber++`, clear pending);
on a throw the error propagates and no field is assigned, which the
state-passing embedding renders by returning the input state. -/
def createAndSubmitBatch (addr : Nat) (s : SeqState) (now : Nat)
    (submitOk : Bool) : SeqState × Option SeqError :=
  let batch := createBatch addr s now
  if submitOk then
    ({ batchNumber := s.batchNumber + 1
       lastBatchHash := hexRender (calculateBatchHash batch)
       pendingTransactions := [] }, none)
  else (s, some SeqError.submissionFailed)

/-- `addTransaction` (sequencer.ts lines 53-67).  `validateTransaction`
(lines 69-92) recovers an ECDSA signer, an external capability; its Boolean
outcome is the oracle `valid`.  A valid transaction is pushed first; if the
pending list then reaches `BATCH_SIZE`, `createAndSubmitBatch` runs. -/
def addTransaction (addr : Nat) (s : SeqState) (tx : Transaction)
    (valid : Bool) (now : Nat) (submitOk : Bool) : SeqState × Option SeqError :=
  if valid then
    let s1 : SeqState :=
      { s with pendingTransactions := s.pendingTransactions ++ [tx] }
    if BATCH_SIZE ≤ s1.pendingTransactions.length then
      createAndSubmitBatch addr s1 now submitOk
    else (s1, none)
  else (s, some SeqError.invalidTransaction)

/-! ## The ledger contract (`contracts/L1RollupContract.sol`) -/

/-- `BatchHeader` (contract lines 9-15); the three hash fields are `bytes32`
values, 32 raw bytes each. -/
structure L1BatchHeader where
  batchNumber : Nat
  timestamp : Nat
  previousBatchHash : SBytes
  transactionRoot : SBytes
  stateRoot : SBytes
deriving DecidableEq

/-- `BatchContext` (contract lines 17-21). -/
structure L1BatchContext where
  submitter : Nat
  timestamp : Nat
  challengePeriodEnd : Nat
deriving DecidableEq

/-- `Batch` (contract lines 23-28). -/
structure L1Batch where
  header : L1BatchHeader
  context : L1BatchContext
  finalized : Bool
  challenged : Bool
deriving DecidableEq

/-- The all-zero `bytes32`. -/
def zeroWord : SBytes := List.replicate 32 (SByte.lit 0)

/-- The zero value a Solidity mapping returns for an absent or deleted slot. -/
def zeroL1Batch : L1Batch :=
  { header :=
      { batchNumber := 0, timestamp := 0, previousBatchHash := zeroWord
        transactionRoot := zeroWord, stateRoot := zeroWord }
    context := { submitter := 0, timestamp := 0, challengePeriodEnd := 0 }
    finalized := false
    challenged := false }

/-- The contract storage (lines 30-34): `batches` and `challenges` are
mappings (total with zero defaults), `latestBatchNumber` a counter. -/
structure L1State where
  batches : Nat → L1Batch
  latestBatchNumber : Nat
  challenges : Nat → Nat → Bool

/-- `CHALLENGE_PERIOD = 5 minutes` (line 33), in seconds. -/
def CHALLENGE_PERIOD : Nat := 300

/-- The chain hash the contract recomputes over a stored header
(lines 56-63 and 282-289): `keccak256(abi.encodePacked(batchNumber,
timestamp, previousBatchHash, transactionRoot))` with the two hashes packed
as raw `bytes32`. -/
def headerChainHash (h : L1BatchHeader) : SBytes :=
  keccak256 (encUint256 h.batchNumber ++ encUint256 h.timestamp
    ++ h.previousBatchHash ++ h.transactionRoot)

/-- `getLatestBatchHash` (contract lines 281-290). -/
def getLatestBatchHash (s : L1State) : SBytes :=
  headerChainHash (s.batches s.latestBatchNumber).header

/-- `submitBatch` (contract lines 45-86).  `none` models a revert.  Note the
source writes `header` and `context` into the existing storage slot and
leaves `finalized` / `challenged` as stored. -/
def submitBatch (s : L1State) (sender now : Nat)
    (batchNumber timestamp : Nat)
    (previousBatchHash transactionRoot stateRoot : SBytes) : Option L1State :=
  if batchNumber ≠ s.latestBatchNumber + 1 then none
  else if 0 < s.latestBatchNumber ∧
      previousBatchHash ≠ headerChainHash (s.batches s.latestBatchNumber).header
    then none
  else some
    { batches := fun n =>
        if n = batchNumber then
          { header :=
              { batchNumber := batchNumber, timestamp := timestamp
                previousBatchHash := previousBatchHash
                transactionRoot := transactionRoot, stateRoot := stateRoot }
            context :=
              { submitter := sender, timestamp := now
                challengePeriodEnd := now + CHALLENGE_PERIOD }
            finalized := (s.batches n).finalized
            challenged := (s.batches n).challenged }
        else s.batches n
      latestBatchNumber := batchNumber
      challenges := s.challenges }

/-- `StateProof` (contract lines 88-93). -/
structure StateProof where
  preStateRoot : SBytes
  postStateRoot : SBytes
  accountProof : List SBytes
  storageProof : List SBytes
deriving DecidableEq

/-- The transaction tuple `(address from, address to, uint256 value,
bytes data)` that `verifyExecution` obtains by `abi.decode`-ing `txData`
(contract lines 175-180). -/
structure TxContent where
  sender : Nat
  recipient : Nat
  value : Nat
  callData : List Nat
deriving DecidableEq

/-- Right-pad a byte string with zeros to a multiple of 32 (ABI tail
padding of a `bytes` value). -/
def padRight32 (bs : List Nat) : List Nat :=
  bs ++ List.replicate ((32 - bs.length % 32) % 32) 0

/-- The standard `abi.encode(address, address, uint256, bytes)` blob: three
static head words, the offset word `0x80` of the dynamic `bytes`, then its
length word and zero-padded contents.  The fraud-proof `txData` is carried in
decoded form and rendered to bytes with this encoder; a `txData` blob that is
not a valid encoding would make `abi.decode` revert and the challenge fail. -/
def abiEncodeTx (tx : TxContent) : SBytes :=
  lits (beBytes 32 tx.sender) ++ lits (beBytes 32 tx.recipient)
    ++ lits (beBytes 32 tx.value) ++ lits (beBytes 32 128)
    ++ lits (beBytes 32 tx.callData.length) ++ lits (padRight32 tx.callData)

/-- The decoded fraud proof
`abi.decode(fraudProof, (bytes32, bytes, StateProof, bytes))`
(contract lines 99-104). -/
structure FraudProof where
  txHash : SBytes
  txContent : TxContent
  stateProof : StateProof
  executionProof : SBytes
deriving DecidableEq

/-- `verifyMerkleProof` (contract lines 203-220): start from `proof[0]` and
fold the remaining elements, hashing the smaller `bytes32` first.  Reading
`proof[0]` of an empty array reverts in Solidity; both a revert and a `false`
make the enclosing challenge revert, so the empty case is rendered `false`. -/
def verifyMerkleProof (proof : List SBytes) (root : SBytes) : Bool :=
  match proof with
  | [] => false
  | x :: rest =>
    decide ((rest.foldl (fun computed el =>
      if bytes32Le computed el then keccak256 (computed ++ el)
      else keccak256 (el ++ computed)) x) = root)

/-- `verifyTransactionInclusion` (contract lines 134-145): requires
`keccak256(txData) == txHash` and then returns `true`.  The Merkle-membership
step against `txRoot` is an unimplemented stub (the source comments that the
proof logic would be added in a real implementation), so `txRoot` is unused. -/
def verifyTransactionInclusion (txHash txRoot : SBytes) (txData : SBytes) :
    Bool :=
  decide (keccak256 txData = txHash)

/-- `verifyStateTransition` (contract lines 147-167). -/
def verifyStateTransition (proof : StateProof) (claimedStateRoot : SBytes) :
    Bool :=
  verifyMerkleProof proof.accountProof proof.preStateRoot &&
  verifyMerkleProof proof.storageProof proof.postStateRoot &&
  decide (claimedStateRoot = proof.postStateRoot)

/-- The `executionHash` `verifyExecution` computes (contract lines 183-191):
`keccak256(abi.encodePacked(from, to, value, data, stateProof.preStateRoot))`.
The source stores it in a local variable and never reads it again. -/
def executionDigest (tx : TxContent) (preStateRoot : SBytes) : SBytes :=
  keccak256 (encAddress tx.sender ++ encAddress tx.recipient
    ++ encUint256 tx.value ++ lits tx.callData ++ preStateRoot)

/-- `verifyExecution` (contract lines 169-201): after decoding `txData` and
computing the (unused) `executionDigest`, the only comparison performed is
`keccak256(executionProof) == stateProof.postStateRoot` (lines 194-198). -/
def verifyExecution (tx : TxContent) (stateProof : StateProof)
    (executionProof : SBytes) : Bool :=
  decide (keccak256 executionProof = stateProof.postStateRoot)

/-- `verifyFraudProof` (contract lines 95-132): the three checks in order;
a failing `require` reverts, which for the enclosing `submitChallenge` is the
same outcome as returning `false`. -/
def verifyFraudProof (s : L1State) (batchNumber : Nat) (fp : FraudProof) :
    Bool :=
  verifyTransactionInclusion fp.txHash
      (s.batches batchNumber).header.transactionRoot (abiEncodeTx fp.txContent)
    && verifyStateTransition fp.stateProof
      (s.batches batchNumber).header.stateRoot
    && verifyExecution fp.txContent fp.stateProof fp.executionProof

/-- The `for (uint256 i = latestBatchNumber; i >= b; i--) delete batches[i]`
loop of `rollbackBatch` (contract lines 227-230), unrolled from the top
index down.  For `1 ≤ b` the loop stops before reaching index 0, so the
base case returns the map unchanged. -/
def deleteDownTo (f : Nat → L1Batch) (b : Nat) : Nat → (Nat → L1Batch)
  | 0 => f
  | i + 1 =>
    if b ≤ i + 1 then
      deleteDownTo (fun n => if n = i + 1 then zeroL1Batch else f n) b i
    else f

/-- `rollbackBatch` (contract lines 223-233): requires the batch to be
marked challenged, deletes every batch from `latestBatchNumber` down to
`batchNumber`, and resets `latestBatchNumber := batchNumber - 1`.  For
`batchNumber = 0` the unsigned loop counter underflows at `i = 0` and the
transaction reverts (`none`). -/
def rollbackBatch (s : L1State) (batchNumber : Nat) : Option L1State :=
  if (s.batches batchNumber).challenged = false then none
  else if batchNumber = 0 then none
  else some
    { batches := deleteDownTo s.batches batchNumber s.latestBatchNumber
      latestBatchNumber := batchNumber - 1
      challenges := s.challenges }

/-- `submitChallenge` (contract lines 250-274): five guards, then fraud-proof
verification, then the state updates (`challenged`, per-address record) and
the rollback.  `none` models a revert anywhere in the call. -/
def submitChallenge (s : L1State) (sender now : Nat) (batchNumber : Nat)
    (fp : FraudProof) : Option L1State :=
  if s.latestBatchNumber < batchNumber then none
  else if (s.batches batchNumber).finalized then none
  else if (s.batches batchNumber).context.challengePeriodEnd < now then none
  else if (s.batches batchNumber).challenged then none
  else if s.challenges batchNumber sender then none
  else if ¬ verifyFraudProof s batchNumber fp then none
  else
    rollbackBatch
      { batches := fun n =>
          if n = batchNumber then
            { s.batches batchNumber with challenged := true }
          else s.batches n
        latestBatchNumber := s.latestBatchNumber
        challenges := fun n a =>
          if n = batchNumber ∧ a = sender then true else s.challenges n a }
      batchNumber

/-- `finalizeBatch` (contract lines 236-247). -/
def finalizeBatch (s : L1State) (now : Nat) (batchNumber : Nat) :
    Option L1State :=
  if s.latestBatchNumber < batchNumber then none
  else if (s.batches batchNumber).finalized then none
  else if ¬ (s.batches batchNumber).context.challengePeriodEnd < now then none
  else if (s.batches batchNumber).challenged then none
  else some
    { s with batches := fun n =>
        if n = batchNumber then { s.batches batchNumber with finalized := true }
        else s.batches n }

/-- One external call into the contract. -/
inductive L1Op where
  | submit (sender now batchNumber timestamp : Nat)
      (previousBatchHash transactionRoot stateRoot : SBytes)
  | challenge (sender now batchNumber : Nat) (fp : FraudProof)
  | finalize (now batchNumber : Nat)

/-- Execute one call; a revert (`none`) leaves the storage unchanged. -/
def applyOp (s : L1State) : L1Op → L1State
  | .submit sender now b t ph tr sr => (submitBatch s sender now b t ph tr sr).getD s
  | .challenge sender now b fp => (submitChallenge s sender now b fp).getD s
  | .finalize now b => (finalizeBatch s now b).getD s

/-- Execute a sequence of external calls. -/
def applyOps (s : L1State) (ops : List L1Op) : L1State := ops.foldl applyOp s

/-! ## Spec-side definitions

These follow the wording of the specification and exist to be compared with
the embeddings above. -/

/-- Spec-side tree construction (spec §4.3): pairwise-combine adjacent
nodes left to right, `hash(left, right)` in original order; an odd trailing
node is paired with a duplicate of itself. -/
def specCombinePairs : List SBytes → List SBytes
  | [] => []
  | [x] => [keccak256 (x ++ x)]
  | x :: y :: rest => keccak256 (x ++ y) :: specCombinePairs rest

/-- Spec-side Merkle root (spec §4.3): combine level by level until a single
node remains; a singleton input is its own root; empty input has no root. -/
def specMerkleRoot : List SBytes → Option SBytes
  | [] => none
  | [x] => some x
  | x :: y :: rest => specMerkleRoot (specCombinePairs (x :: y :: rest))
termination_by l => l.length
decreasing_by
  have key : ∀ l : List SBytes, (specCombinePairs l).length = (l.length + 1) / 2 := by
    intro l
    induction l using specCombinePairs.induct with
    | case1 => simp [specCombinePairs]
    | case2 x => simp [specCombinePairs]
    | case3 x y rest ih => simp [specCombinePairs, ih]; omega
  rw [key]
  simp
  omega

/-- Spec-side Merkle membership fold (spec §4.7 check 1): combine the running
hash with each proof element, canonically ordering the two 32-byte values —
lexicographically smaller first. -/
def specInclusionFold (leaf : SBytes) (proof : List SBytes) : SBytes :=
  proof.foldl (fun acc el =>
    if bytes32Le acc el then keccak256 (acc ++ el)
    else keccak256 (el ++ acc)) leaf

/-- The sequencer's copy of a ledger batch header: the same four fields,
with the two `bytes32` hashes held as the `0x`-prefixed lowercase hex strings
ethers.js returns for them. -/
def seqHeaderView (h : L1BatchHeader) : SeqHeader :=
  { batchNumber := h.batchNumber
    timestamp := h.timestamp
    previousBatchHash := hexRender h.previousBatchHash
    transactionRoot := some (hexRender h.transactionRoot) }

/-! ## Concrete fixtures used by witnesses and counterexamples -/

/-- A minimal disputed transaction: zero addresses, zero value, no calldata. -/
def txc0 : TxContent := { sender := 0, recipient := 0, value := 0, callData := [] }

/-- Its ABI encoding, the `txData` blob of the fraud proof. -/
def txBytes0 : SBytes := abiEncodeTx txc0

/-- A state proof whose two membership proofs are the single-element arrays
`[root]`, which `verifyMerkleProof` accepts, with
`postStateRoot = keccak256 ""` matching the fixture batch's state root. -/
def sp0 : StateProof :=
  { preStateRoot := zeroWord
    postStateRoot := keccak256 []
    accountProof := [zeroWord]
    storageProof := [keccak256 []] }

/-- A fraud proof the contract accepts against the fixture batch. -/
def fp0 : FraudProof :=
  { txHash := keccak256 txBytes0
    txContent := txc0
    stateProof := sp0
    executionProof := [] }

/-- The fixture batch stored at number 1: unfinalized, unchallenged, with
challenge window ending at time 100 and `stateRoot = keccak256 ""`. -/
def batch1 : L1Batch :=
  { header :=
      { batchNumber := 1, timestamp := 0, previousBatchHash := zeroWord
        transactionRoot := zeroWord, stateRoot := keccak256 [] }
    context := { submitter := 0, timestamp := 0, challengePeriodEnd := 100 }
    finalized := false
    challenged := false }

/-- Contract storage holding only `batch1` at number 1. -/
def s0 : L1State :=
  { batches := fun n => if n = 1 then batch1 else zeroL1Batch
    latestBatchNumber := 1
    challenges := fun _ _ => false }

/-- The freshly deployed contract storage: no batches. -/
def s00 : L1State :=
  { batches := fun _ => zeroL1Batch
    latestBatchNumber := 0
    challenges := fun _ _ => false }

/-- Storage in which address 5 already challenged batch 1. -/
def s0c : L1State :=
  { s0 with challenges := fun n a => n == 1 && a == 5 }

/-- A concrete admissible rollup transaction. -/
def tx1 : Transaction :=
  { sender := 0, recipient := 0, value := 0, data := [], nonce := 0
    signature := [] }

/-- A sequencer state whose mempool already holds ten transactions. -/
def s10 : SeqState :=
  { batchNumber := 3
    lastBatchHash := hexRender zeroWord
    pendingTransactions := List.replicate 10 tx1 }

/-! ## Helper lemmas -/

theorem keccak256_inj {m1 m2 : SBytes} (h : keccak256 m1 = keccak256 m2) :
    m1 = m2 := by
  simp [keccak256, List.range_succ] at h
  exact h

theorem keccak256_length (m : SBytes) : (keccak256 m).length = 32 := by
  simp [keccak256]

theorem beBytes_length : ∀ (w n : Nat), (beBytes w n).length = w := by
  intro w
  induction w with
  | zero => intro n; rfl
  | succ w ih => intro n; simp [beBytes, ih]

theorem encUint256_length (n : Nat) : (encUint256 n).length = 32 := by
  simp [encUint256, lits, beBytes_length]

theorem hexPairs_length : ∀ bs : SBytes,
    (bs.flatMap (fun b => [hexHi b, hexLo b])).length = 2 * bs.length := by
  intro bs
  induction bs with
  | nil => rfl
  | cons b rest ih => simp [ih]; omega

theorem hexRender_length (bs : SBytes) :
    (hexRender bs).length = 2 + 2 * bs.length := by
  have h := hexPairs_length bs
  simp [hexRender]
  simp at h
  omega

theorem combineLevel_eq_specCombinePairs : ∀ l : List SBytes,
    combineLevel l = specCombinePairs l := by
  intro l
  induction l using combineLevel.induct with
  | case1 => rfl
  | case2 x => rfl
  | case3 x y rest ih => simp [combineLevel, specCombinePairs, ih]

theorem specCombinePairs_length : ∀ l : List SBytes,
    (specCombinePairs l).length = (l.length + 1) / 2 := by
  intro l
  induction l using specCombinePairs.induct with
  | case1 => simp [specCombinePairs]
  | case2 x => simp [specCombinePairs]
  | case3 x y rest ih => simp [specCombinePairs, ih]; omega

theorem merkleLoop_eq_specMerkleRoot (l : List SBytes) :
    merkleLoop l = specMerkleRoot l := by
  match l with
  | [] => rw [merkleLoop]; simp [specMerkleRoot]
  | [x] => rw [merkleLoop]; simp [specMerkleRoot]
  | x :: y :: rest =>
    rw [merkleLoop]
    have hlen : ¬ (x :: y :: rest).length ≤ 1 := by simp
    rw [dif_neg hlen, specMerkleRoot, combineLevel_eq_specCombinePairs]
    exact merkleLoop_eq_specMerkleRoot (specCombinePairs (x :: y :: rest))
termination_by l.length
decreasing_by
  rw [specCombinePairs_length]
  simp
  omega

theorem deleteDownTo_above {f : Nat → L1Batch} {b i n : Nat} (h : i < n) :
    deleteDownTo f b i n = f n := by
  induction i generalizing f with
  | zero => rfl
  | succ i ih =>
    rw [deleteDownTo]
    split
    · rw [ih (by omega)]
      simp [show n ≠ i + 1 by omega]
    · rfl

theorem deleteDownTo_inside {f : Nat → L1Batch} {b i n : Nat}
    (hb1 : 1 ≤ b) (hbn : b ≤ n) (hni : n ≤ i) :
    deleteDownTo f b i n = zeroL1Batch := by
  induction i generalizing f with
  | zero => omega
  | succ i ih =>
    rw [deleteDownTo]
    rw [if_pos (by omega)]
    by_cases hn : n = i + 1
    · rw [deleteDownTo_above (by omega)]
      simp [hn]
    · exact ih (by omega)

theorem deleteDownTo_below {f : Nat → L1Batch} {b i n : Nat} (h : n < b) :
    deleteDownTo f b i n = f n := by
  induction i generalizing f with
  | zero => rfl
  | succ i ih =>
    rw [deleteDownTo]
    split
    · rw [ih]
      simp [show n ≠ i + 1 by omega]
    · rfl

/-- What a successful `submitChallenge` did: the batch existed (`b ≤ latest`),
`b ≥ 1`, and the final state is the rollback of the challenge-marked state. -/
theorem submitChallenge_shape {s : L1State} {sender now b : Nat}
    {fp : FraudProof} {s' : L1State}
    (h : submitChallenge s sender now b fp = some s') :
    b ≤ s.latestBatchNumber ∧ 1 ≤ b ∧
      s' = { batches := deleteDownTo
               (fun n => if n = b then { s.batches b with challenged := true }
                 else s.batches n) b s.latestBatchNumber
             latestBatchNumber := b - 1
             challenges := fun n a =>
               if n = b ∧ a = sender then true else s.challenges n a } := by
  unfold submitChallenge at h
  by_cases h1 : s.latestBatchNumber < b
  · simp [h1] at h
  rw [if_neg h1] at h
  by_cases h2 : (s.batches b).finalized = true
  · simp [h2] at h
  rw [if_neg h2] at h
  by_cases h3 : (s.batches b).context.challengePeriodEnd < now
  · simp [h3] at h
  rw [if_neg h3] at h
  by_cases h4 : (s.batches b).challenged = true
  · simp [h4] at h
  rw [if_neg h4] at h
  by_cases h5 : s.challenges b sender = true
  · simp [h5] at h
  rw [if_neg h5] at h
  by_cases h6 : verifyFraudProof s b fp = true
  · rw [if_neg (by simp [h6])] at h
    unfold rollbackBatch at h
    rw [if_neg (by simp)] at h
    by_cases hb0 : b = 0
    · simp [hb0] at h
    rw [if_neg hb0] at h
    refine ⟨by omega, by omega, ?_⟩
    exact (Option.some.injEq _ _).mp h |>.symm
  · simp [h6] at h

/-- Any of the five guards refuses `submitChallenge` before verification,
with no state change (a revert), for every fraud proof. -/
theorem submitChallenge_refused {s : L1State} {sender now b : Nat}
    (fp : FraudProof)
    (hcase : s.latestBatchNumber < b ∨ (s.batches b).finalized = true ∨
      (s.batches b).context.challengePeriodEnd < now ∨
      (s.batches b).challenged = true ∨ s.challenges b sender = true) :
    submitChallenge s sender now b fp = none := by
  unfold submitChallenge
  by_cases h1 : s.latestBatchNumber < b
  · simp [h1]
  rw [if_neg h1]
  by_cases h2 : (s.batches b).finalized = true
  · simp [h2]
  rw [if_neg h2]
  by_cases h3 : (s.batches b).context.challengePeriodEnd < now
  · simp [h3]
  rw [if_neg h3]
  by_cases h4 : (s.batches b).challenged = true
  · simp [h4]
  rw [if_neg h4]
  by_cases h5 : s.challenges b sender = true
  · simp [h5]
  rcases hcase with h | h | h | h | h <;> simp_all

theorem submitBatch_challenges {s s' : L1State} {sender now b t : Nat}
    {ph tr sr : SBytes}
    (h : submitBatch s sender now b t ph tr sr = some s') :
    s'.challenges = s.challenges := by
  unfold submitBatch at h
  by_cases h1 : b ≠ s.latestBatchNumber + 1
  · simp [h1] at h
  rw [if_neg h1] at h
  by_cases h2 : 0 < s.latestBatchNumber ∧
      ph ≠ headerChainHash (s.batches s.latestBatchNumber).header
  · simp [h2] at h
  rw [if_neg h2] at h
  cases h
  rfl

theorem finalizeBatch_challenges {s s' : L1State} {now b : Nat}
    (h : finalizeBatch s now b = some s') :
    s'.challenges = s.challenges := by
  unfold finalizeBatch at h
  by_cases h1 : s.latestBatchNumber < b
  · simp [h1] at h
  rw [if_neg h1] at h
  by_cases h2 : (s.batches b).finalized = true
  · simp [h2] at h
  rw [if_neg h2] at h
  by_cases h3 : ¬ (s.batches b).context.challengePeriodEnd < now
  · simp [h3] at h
  rw [if_neg h3] at h
  by_cases h4 : (s.batches b).challenged = true
  · simp [h4] at h
  rw [if_neg h4] at h
  cases h
  rfl

theorem submitChallenge_challenges_mono {s s' : L1State} {sender now b : Nat}
    {fp : FraudProof} (h : submitChallenge s sender now b fp = some s')
    {n a : Nat} (hold : s.challenges n a = true) :
    s'.challenges n a = true := by
  obtain ⟨-, -, hs'⟩ := submitChallenge_shape h
  subst hs'
  by_cases hna : n = b ∧ a = sender <;> simp [hna, hold]

theorem applyOp_challenges_mono (s : L1State) (op : L1Op) {n a : Nat}
    (hold : s.challenges n a = true) :
    (applyOp s op).challenges n a = true := by
  cases op with
  | submit sender now b t ph tr sr =>
    show ((submitBatch s sender now b t ph tr sr).getD s).challenges n a = true
    cases heq : submitBatch s sender now b t ph tr sr with
    | none => simpa using hold
    | some s' => simp [submitBatch_challenges heq, hold]
  | challenge sender now b fp =>
    show ((submitChallenge s sender now b fp).getD s).challenges n a = true
    cases heq : submitChallenge s sender now b fp with
    | none => simpa using hold
    | some s' => simpa using submitChallenge_challenges_mono heq hold
  | finalize now b =>
    show ((finalizeBatch s now b).getD s).challenges n a = true
    cases heq : finalizeBatch s now b with
    | none => simpa using hold
    | some s' => simp [finalizeBatch_challenges heq, hold]

/-! ## Claims -/

/-- C1: the claim asserts that `Sequencer.calculateBatchHash` and the
ledger's `getLatestBatchHash` agree on every header.  They never do: the
sequencer packs `previousBatchHash` and `transactionRoot` with `solidityPacked`
type `string` (the UTF-8 bytes of the 66-character hex text), while the ledger
packs them as raw `bytes32`, so the two preimages have lengths 196 and 128 and
the hashes always differ.  This theorem proves the divergence for every stored
header whose two hash fields are 32 bytes wide. -/
theorem claim1_batch_hash_mismatch (s : L1State) (ctx : SeqContext)
    (txs : List Transaction)
    (h1 : (s.batches s.latestBatchNumber).header.previousBatchHash.length = 32)
    (h2 : (s.batches s.latestBatchNumber).header.transactionRoot.length = 32) :
    calculateBatchHash
        { header := seqHeaderView (s.batches s.latestBatchNumber).header
          context := ctx
          transactions := txs }
      ≠ getLatestBatchHash s := by
  intro heq
  simp only [calculateBatchHash, getLatestBatchHash, headerChainHash,
    seqHeaderView, Option.getD_some] at heq
  have hmsg := keccak256_inj heq
  have hlen := congrArg List.length hmsg
  simp only [List.length_append, encUint256_length, hexRender_length,
    h1, h2] at hlen
  omega

/-- Witness for C1 at the freshly deployed ledger state. -/
theorem claim1_batch_hash_mismatch_witness :
    calculateBatchHash
        { header := seqHeaderView (s00.batches s00.latestBatchNumber).header
          context := { submitter := 0, timestamp := 0, challengePeriodEnd := 0 }
          transactions := [] }
      ≠ getLatestBatchHash s00 :=
  claim1_batch_hash_mismatch s00
    { submitter := 0, timestamp := 0, challengePeriodEnd := 0 } []
    (by decide) (by decide)

set_option maxRecDepth 100000 in
/-- C2, counterexample: the claim asserts the inclusion check succeeds only
if the supplied Merkle membership proof resolves to the transaction root.
Here the check succeeds for a batch whose `transactionRoot` is the zero word,
to which the (empty) membership proof does not resolve. -/
theorem claim2_inclusion_counterexample :
    verifyTransactionInclusion (keccak256 txBytes0) zeroWord txBytes0 = true ∧
    specInclusionFold (keccak256 txBytes0) [] ≠ zeroWord := by
  exact ⟨by decide, by decide⟩

/-- C2, amended: `verifyTransactionInclusion` succeeds iff the recomputed
keccak256 of `txData` equals the claimed hash; it performs no Merkle
membership verification at all, and its `txRoot` argument does not influence
the outcome (the lexicographic sibling-ordering fold exists only in
`verifyMerkleProof`, which serves the state-transition check). -/
theorem claim2_inclusion_amended :
    (∀ txHash txRoot txData : SBytes,
        verifyTransactionInclusion txHash txRoot txData = true ↔
          keccak256 txData = txHash) ∧
    (∀ txHash r1 r2 txData : SBytes,
        verifyTransactionInclusion txHash r1 txData
          = verifyTransactionInclusion txHash r2 txData) := by
  exact ⟨fun a b c => by simp [verifyTransactionInclusion], fun a b c d => rfl⟩

/-- C3, counterexample: the claim asserts `verifyExecution` succeeds iff the
recomputed execution digest equals the supplied execution witness.  Here the
check succeeds although the digest differs from the witness (and from its
hash): the code never compares the digest to anything. -/
theorem claim3_execution_counterexample :
    verifyExecution txc0 sp0 [] = true ∧
    executionDigest txc0 sp0.preStateRoot ≠ ([] : SBytes) ∧
    executionDigest txc0 sp0.preStateRoot ≠ keccak256 [] := by
  exact ⟨by decide, by decide, by decide⟩

/-- C3, amended: `verifyExecution` computes the execution digest from the
transaction fields and the pre-state root but never uses it; the check
succeeds iff `keccak256(executionProof)` equals `stateProof.postStateRoot`,
and the decoded transaction fields do not influence the outcome. -/
theorem claim3_execution_amended :
    (∀ (tx : TxContent) (sp : StateProof) (ep : SBytes),
        verifyExecution tx sp ep = true ↔ keccak256 ep = sp.postStateRoot) ∧
    (∀ (tx tx' : TxContent) (sp : StateProof) (ep : SBytes),
        verifyExecution tx sp ep = verifyExecution tx' sp ep) := by
  exact ⟨fun tx sp ep => by simp [verifyExecution], fun _ _ _ _ => rfl⟩

/-- C4: the claim asserts `calculateTransactionRoot([])` equals the hash of
the empty byte string.  On the empty list the loop never runs and the code
returns `layers[0][0]` of an empty layer — JavaScript `undefined` (`none`),
not `keccak256 ""`; the repository's own test
(`sequencer.test.ts`, `expect(root).to.equal(ethers.keccak256('0x'))`)
contradicts the code here. -/
theorem claim4_empty_root_undefined :
    calculateTransactionRoot [] = none ∧
    calculateTransactionRoot [] ≠ some (keccak256 []) := by
  have h : calculateTransactionRoot [] = none := by
    rw [calculateTransactionRoot]
    rw [merkleLoop]
    simp
  exact ⟨h, by simp [h]⟩

/-- C5: the Merkle root of every transaction list is built exactly as the
spec describes — leaves combined pairwise level by level, an odd node paired
with a duplicate of itself, each pair hashed as `hash(left ++ right)` in
original left-to-right order (for all values, hence never reordered by
magnitude).  The while-loop embedding agrees with the spec-side recursion on
every input, and the two sample shapes exhibit the ordering and duplication
rules. -/
theorem claim5_merkle_construction :
    (∀ txs : List Transaction,
        calculateTransactionRoot txs = specMerkleRoot (txs.map txLeafHash)) ∧
    (∀ a b : SBytes, specMerkleRoot [a, b] = some (keccak256 (a ++ b))) ∧
    (∀ a b c : SBytes,
        specMerkleRoot [a, b, c]
          = some (keccak256 (keccak256 (a ++ b) ++ keccak256 (c ++ c)))) := by
  refine ⟨fun txs => merkleLoop_eq_specMerkleRoot _, fun a b => ?_, fun a b c => ?_⟩
  · rw [specMerkleRoot]
    simp [specCombinePairs, specMerkleRoot]
  · rw [specMerkleRoot]
    simp [specCombinePairs, specMerkleRoot]

/-- C6: when a challenge against batch `b` is accepted, every batch numbered
`b` up to the previous latest is deleted, every batch numbered below `b` is
untouched, and the latest batch number is reset so that only a submission
with `batchNumber = b` can be accepted next. -/
theorem claim6_rollback_semantics (s : L1State) (sender now b : Nat)
    (fp : FraudProof) (s' : L1State)
    (h : submitChallenge s sender now b fp = some s') :
    (∀ j, b ≤ j → j ≤ s.latestBatchNumber → s'.batches j = zeroL1Batch) ∧
    (∀ j, j < b → s'.batches j = s.batches j) ∧
    s'.latestBatchNumber + 1 = b ∧
    (∀ sender2 now2 b2 t2 ph tr sr,
        (submitBatch s' sender2 now2 b2 t2 ph tr sr).isSome = true → b2 = b) := by
  obtain ⟨hble, hb1, hs'⟩ := submitChallenge_shape h
  subst hs'
  refine ⟨?_, ?_, by simp; omega, ?_⟩
  · intro j hbj hjle
    exact deleteDownTo_inside hb1 hbj hjle
  · intro j hj
    show deleteDownTo
        (fun n => if n = b then { s.batches b with challenged := true }
          else s.batches n) b s.latestBatchNumber j = s.batches j
    rw [deleteDownTo_below hj]
    simp [show j ≠ b by omega]
  · intro sender2 now2 b2 t2 ph tr sr hsome
    by_cases hb2 : b2 = (b - 1) + 1
    · omega
    · rw [submitBatch, if_pos (by simpa using hb2)] at hsome
      simp at hsome

set_option maxRecDepth 100000 in
/-- Witness for C6: a concrete accepted challenge against batch 1. -/
theorem claim6_rollback_semantics_witness :
    ((submitChallenge s0 5 0 1 fp0).getD s0).latestBatchNumber + 1 = 1 ∧
    ((submitChallenge s0 5 0 1 fp0).getD s0).batches 1 = zeroL1Batch := by
  obtain ⟨s', hsome⟩ := Option.isSome_iff_exists.mp
    (show (submitChallenge s0 5 0 1 fp0).isSome = true by decide)
  have main := claim6_rollback_semantics s0 5 0 1 fp0 s' hsome
  rw [hsome]
  simp only [Option.getD_some]
  exact ⟨main.2.2.1, main.1 1 le_rfl (by decide)⟩

/-- C7: `submitChallenge` is refused — reverting with no state mutation and
independently of the supplied fraud proof, i.e. before verification — when
the batch does not exist, is finalized, is past its challenge window, is
already challenged, or was already challenged by the same address. -/
theorem claim7_challenge_refusal (s : L1State) (sender now b : Nat)
    (fp : FraudProof)
    (hcase : s.latestBatchNumber < b ∨ (s.batches b).finalized = true ∨
      (s.batches b).context.challengePeriodEnd < now ∨
      (s.batches b).challenged = true ∨ s.challenges b sender = true) :
    submitChallenge s sender now b fp = none :=
  submitChallenge_refused fp hcase

/-- Witness for C7: a challenge against the non-existent batch 2. -/
theorem claim7_challenge_refusal_witness :
    submitChallenge s0 5 0 2 fp0 = none :=
  claim7_challenge_refusal s0 5 0 2 fp0 (Or.inl (by decide))

/-- C8: a failed ledger submission leaves the sequencer state exactly as it
was — `batchNumber`, `lastBatchHash` and the pending list unchanged, the
in-flight transactions still pending — and surfaces the error to the caller. -/
theorem claim8_failed_submission_state (addr : Nat) (s : SeqState) (now : Nat) :
    createAndSubmitBatch addr s now false
        = (s, some SeqError.submissionFailed) ∧
    (createAndSubmitBatch addr s now false).1.lastBatchHash = s.lastBatchHash ∧
    (createAndSubmitBatch addr s now false).1.batchNumber = s.batchNumber ∧
    (createAndSubmitBatch addr s now false).1.pendingTransactions
        = s.pendingTransactions :=
  ⟨rfl, rfl, rfl, rfl⟩

/-- C9: a per-address challenge record, once set, survives every further
contract call (rollback deletes batches but never the `challenges` mapping),
and while set it makes any later challenge by the same address on the same
batch number refused — even after a fresh batch reoccupies that number. -/
theorem claim9_challenges_persist :
    (∀ (s : L1State) (sender now b : Nat) (fp : FraudProof) (s' : L1State),
        submitChallenge s sender now b fp = some s' →
        s'.challenges b sender = true) ∧
    (∀ (s : L1State) (b a : Nat) (ops : List L1Op),
        s.challenges b a = true → (applyOps s ops).challenges b a = true) ∧
    (∀ (s : L1State) (a now b : Nat) (fp : FraudProof),
        s.challenges b a = true → submitChallenge s a now b fp = none) := by
  refine ⟨?_, ?_, ?_⟩
  · intro s sender now b fp s' h
    obtain ⟨-, -, hs'⟩ := submitChallenge_shape h
    subst hs'
    simp
  · intro s b a ops hold
    induction ops generalizing s with
    | nil => exact hold
    | cons op rest ih =>
      exact ih _ (applyOp_challenges_mono s op hold)
  · intro s a now b fp hold
    exact submitChallenge_refused fp (by simp [hold])

/-- Witness for C9: address 5 already challenged batch 1 in `s0c`; the record
survives a finalize call and a repeat challenge is refused. -/
theorem claim9_challenges_persist_witness :
    (applyOps s0c [L1Op.finalize 500 1]).challenges 1 5 = true ∧
    submitChallenge s0c 5 0 1 fp0 = none :=
  ⟨claim9_challenges_persist.2.1 s0c 1 5 [L1Op.finalize 500 1] (by decide),
   claim9_challenges_persist.2.2 s0c 5 0 1 fp0 (by decide)⟩

/-- C10: the mempool is not capped at `BATCH_SIZE = 10`: `addTransaction`
appends a valid transaction before attempting submission, so on a failed
submission the transaction stays pending and the list keeps growing; whenever
the append leaves the list at or beyond `BATCH_SIZE`, assembly and submission
of the whole pending list is re-attempted (here: attempted and failed, the
error surfacing). -/
theorem claim10_mempool_uncapped :
    BATCH_SIZE = 10 ∧
    (∀ (addr : Nat) (s : SeqState) (tx : Transaction) (now : Nat),
        (addTransaction addr s tx true now false).1.pendingTransactions
          = s.pendingTransactions ++ [tx]) ∧
    (∀ (addr : Nat) (s : SeqState) (tx : Transaction) (now : Nat),
        BATCH_SIZE ≤ (s.pendingTransactions ++ [tx]).length →
        addTransaction addr s tx true now false
          = ({ s with pendingTransactions := s.pendingTransactions ++ [tx] },
             some SeqError.submissionFailed)) ∧
    (∀ (addr : Nat) (s : SeqState) (now : Nat),
        (createBatch addr s now).transactions = s.pendingTransactions) := by
  refine ⟨rfl, ?_, ?_, fun addr s now => rfl⟩
  · intro addr s tx now
    by_cases h : BATCH_SIZE ≤ s.pendingTransactions.length + 1
    · simp [addTransaction, createAndSubmitBatch, h]
    · simp [addTransaction, h]
  · intro addr s tx now h
    have h' : BATCH_SIZE ≤ s.pendingTransactions.length + 1 := by
      simpa using h
    simp [addTransaction, createAndSubmitBatch, h']

/-- Witness for C10: an eleventh transaction enters an already-full mempool,
submission fails, and all eleven transactions remain pending. -/
theorem claim10_mempool_uncapped_witness :
    addTransaction 0 s10 tx1 true 0 false
      = ({ s10 with
            pendingTransactions := s10.pendingTransactions ++ [tx1] },
         some SeqError.submissionFailed) :=
  claim10_mempool_uncapped.2.2.1 0 s10 tx1 0 (by decide)
